import Mathlib

/-!
Verification of the decision-market multi-agent bandit environment
(`Environment.py`). The Python classes and functions are shallowly embedded:
belief reports and market predictions are real numbers (the code stores raw
logit-space scalars), numpy arrays become `List ℝ`, enum tags become inductive
types, and `raise ValueError` becomes `Except.error`. Randomness (the rank
drawn by the stochastic decision rule, the Gaussian noise of the explorer) is
externalised as an explicit argument.
-/

namespace Env

/-- The `Ball` enum: RED = 0, BLUE = 1. -/
inductive Ball
  | RED
  | BLUE
deriving DecidableEq

/-- `Ball.value` mirrors the Python enum value. -/
def Ball.value : Ball → Nat
  | .RED => 0
  | .BLUE => 1

/-- The `BucketColour` enum: RED = 0, BLUE = 1. -/
inductive BucketColour
  | RED
  | BLUE
deriving DecidableEq, Inhabited

/-- `BucketColour.value` mirrors the Python enum value. -/
def BucketColour.value : BucketColour → Nat
  | .RED => 0
  | .BLUE => 1

/-- The value passed in the `score_func` position: the two members of the
Python `ScoreFunction` enum, or (`invalid n`) any other Python object. -/
inductive ScoreTag
  | LOG
  | QUADRATIC
  | invalid (n : Nat)
deriving DecidableEq

/-- The value passed in the `decision_rule` position: the two members of the
Python `DecisionRule` enum, or (`invalid n`) any other Python object. -/
inductive RuleTag
  | STOCHASTIC
  | DETERMINISTIC
  | invalid (n : Nat)
deriving DecidableEq

/-- `scipy.special.expit`: the logistic sigmoid. -/
noncomputable def expit (x : ℝ) : ℝ := 1 / (1 + Real.exp (-x))

/-- `scipy.special.logit`: log-odds of a probability. -/
noncomputable def logit (x : ℝ) : ℝ := Real.log (x / (1 - x))

/-- `NaiveBayesOneIter(prior, signal, bucket_no, pr_rs_ru, pr_rs_bu)`
(`Environment.py` lines 48-57): copies the prior vector and overwrites the
entry at `bucket_no` with the two-hypothesis Bayes posterior; a RED signal
uses the likelihood pair `(pr_rs_ru, pr_rs_bu)`, a BLUE signal their
complements. -/
noncomputable def NaiveBayesOneIter (prior : List ℝ) (signal : Ball)
    (bucket_no : Nat) (pr_rs_ru pr_rs_bu : ℝ) : List ℝ :=
  let p := prior.getD bucket_no 0
  match signal with
  | .RED => prior.set bucket_no (p * pr_rs_ru / (p * pr_rs_ru + (1 - p) * pr_rs_bu))
  | .BLUE => prior.set bucket_no
      (p * (1 - pr_rs_ru) / (p * (1 - pr_rs_ru) + (1 - p) * (1 - pr_rs_bu)))

/- List helper lemmas used throughout. -/

lemma lgetD_set_self {α : Type} (l : List α) (i : Nat) (v d : α)
    (h : i < l.length) : (l.set i v).getD i d = v := by
  induction l generalizing i with
  | nil => simp at h
  | cons a t ih =>
    cases i with
    | zero => simp [List.set]
    | succ n =>
      simp only [List.set, List.getD_cons_succ]
      exact ih n (by simpa using h)

lemma lgetD_set_ne {α : Type} (l : List α) (i j : Nat) (v d : α)
    (h : j ≠ i) : (l.set i v).getD j d = l.getD j d := by
  induction l generalizing i j with
  | nil => simp [List.set]
  | cons a t ih =>
    cases i with
    | zero =>
      cases j with
      | zero => exact absurd rfl h
      | succ n => simp [List.set]
    | succ n =>
      cases j with
      | zero => simp [List.set]
      | succ k =>
        simp only [List.set, List.getD_cons_succ]
        exact ih n k (fun hk => h (by simp [hk]))

lemma lgetD_map {α β : Type} (f : α → β) (l : List α) (j : Nat) (d : α)
    (db : β) (h : j < l.length) : (l.map f).getD j db = f (l.getD j d) := by
  induction l generalizing j with
  | nil => simp at h
  | cons a t ih =>
    cases j with
    | zero => simp
    | succ n => simpa using ih n (by simpa using h)

lemma lset_map {α β : Type} (f : α → β) (l : List α) (i : Nat) (v : α) :
    (l.set i v).map f = (l.map f).set i (f v) := by
  induction l generalizing i with
  | nil => simp
  | cons a t ih =>
    cases i with
    | zero => simp [List.set]
    | succ n => simp [List.set, ih]

lemma lset_self {α : Type} (l : List α) (i : Nat) (v d : α)
    (h : i < l.length) (hv : l.getD i d = v) : l.set i v = l := by
  induction l generalizing i with
  | nil => simp at h
  | cons a t ih =>
    cases i with
    | zero => simp_all [List.set]
    | succ n =>
      simp only [List.set, List.cons.injEq, true_and]
      exact ih n (by simpa using h) (by simpa using hv)

/-- Claim C1: `NaiveBayesOneIter` returns a copy of the prior vector in which
only the entry at `bucket_no` is replaced by the two-hypothesis Bayes
posterior — `p·L/(p·L + (1−p)·L')` with likelihoods `(pr_rs_ru, pr_rs_bu)`
for a RED signal and their complements for a BLUE signal; in particular a
prior of 3/4 with likelihoods 2/3, 1/3 and a RED signal updates to 6/7. -/
theorem c1_naive_bayes_update (prior : List ℝ) (bno : Nat) (a b : ℝ)
    (h : bno < prior.length) :
    ((NaiveBayesOneIter prior Ball.RED bno a b).getD bno 0 =
        prior.getD bno 0 * a /
          (prior.getD bno 0 * a + (1 - prior.getD bno 0) * b)
      ∧ (NaiveBayesOneIter prior Ball.BLUE bno a b).getD bno 0 =
        prior.getD bno 0 * (1 - a) /
          (prior.getD bno 0 * (1 - a) + (1 - prior.getD bno 0) * (1 - b))
      ∧ (∀ s : Ball, ∀ j : Nat, j ≠ bno →
          (NaiveBayesOneIter prior s bno a b).getD j 0 = prior.getD j 0)
      ∧ (∀ s : Ball, (NaiveBayesOneIter prior s bno a b).length = prior.length))
    ∧ NaiveBayesOneIter [3/4, 1/4] Ball.RED 0 (2/3) (1/3) = [6/7, 1/4] := by
  refine ⟨⟨?_, ?_, ?_, ?_⟩, ?_⟩
  · simp only [NaiveBayesOneIter]
    exact lgetD_set_self _ _ _ _ h
  · simp only [NaiveBayesOneIter]
    exact lgetD_set_self _ _ _ _ h
  · intro s j hj
    cases s <;> simp only [NaiveBayesOneIter] <;> exact lgetD_set_ne _ _ _ _ _ hj
  · intro s
    cases s <;> simp [NaiveBayesOneIter]
  · simp only [NaiveBayesOneIter, List.getD_cons_zero, List.set]
    norm_num

/-- Witness for C1 at the concrete scenario of the spec. -/
theorem c1_witness :
    (0 : Nat) < ([3/4, 1/4] : List ℝ).length ∧
    (((NaiveBayesOneIter [3/4, 1/4] Ball.RED 0 (2/3) (1/3)).getD 0 0 =
        ([3/4, 1/4] : List ℝ).getD 0 0 * (2/3) /
          (([3/4, 1/4] : List ℝ).getD 0 0 * (2/3) +
            (1 - ([3/4, 1/4] : List ℝ).getD 0 0) * (1/3))
      ∧ (NaiveBayesOneIter [3/4, 1/4] Ball.BLUE 0 (2/3) (1/3)).getD 0 0 =
        ([3/4, 1/4] : List ℝ).getD 0 0 * (1 - 2/3) /
          (([3/4, 1/4] : List ℝ).getD 0 0 * (1 - 2/3) +
            (1 - ([3/4, 1/4] : List ℝ).getD 0 0) * (1 - 1/3))
      ∧ (∀ s : Ball, ∀ j : Nat, j ≠ 0 →
          (NaiveBayesOneIter [3/4, 1/4] s 0 (2/3) (1/3)).getD j 0 =
            ([3/4, 1/4] : List ℝ).getD j 0)
      ∧ (∀ s : Ball,
          (NaiveBayesOneIter [3/4, 1/4] s 0 (2/3) (1/3)).length =
            ([3/4, 1/4] : List ℝ).length))
    ∧ NaiveBayesOneIter [3/4, 1/4] Ball.RED 0 (2/3) (1/3) = [6/7, 1/4]) :=
  ⟨by simp, c1_naive_bayes_update [3/4, 1/4] 0 (2/3) (1/3) (by simp)⟩

/-- The `PredictionMarket` class state: an option id, the current (logit
space) prediction, and the two report histories. -/
structure PredictionMarket where
  no : Nat
  current_prediction : ℝ
  sampled_prediction_history : List ℝ
  mean_prediction_history : List ℝ

instance : Inhabited PredictionMarket := ⟨⟨0, 0, [], []⟩⟩

/-- `PredictionMarket.__init__(no, prior_red)`: both histories start with the
prior, which is also the current prediction. -/
def pmInit (no : Nat) (prior_red : ℝ) : PredictionMarket :=
  ⟨no, prior_red, [prior_red], [prior_red]⟩

/-- `PredictionMarket.report(sampled_prediction, mean_prediction)`
(`Environment.py` lines 79-83): appends both values to their histories and
overwrites `current_prediction` with the mean prediction. The method body is
three plain assignments: it performs no validation and has no failure path. -/
def PredictionMarket.report (pm : PredictionMarket) (sampled mean : ℝ) :
    PredictionMarket :=
  { pm with
    sampled_prediction_history := pm.sampled_prediction_history ++ [sampled]
    mean_prediction_history := pm.mean_prediction_history ++ [mean]
    current_prediction := mean }

/-- Counterexample to claim C2: a report whose components sum to 9 (deviating
from 1 by far more than any fixed epsilon) is not rejected — `report` has no
failure path — and it does not leave the market state unchanged. -/
theorem c2_counterexample :
    ((pmInit 0 0).report 9 9).current_prediction ≠
      (pmInit 0 0).current_prediction := by
  simp [pmInit, PredictionMarket.report]

/-- Claim C2 (amended): `report` performs no validation and never fails; for
every pair of incoming values it appends the sampled prediction to
`sampled_prediction_history`, appends the mean prediction to
`mean_prediction_history` (so the existing history is preserved as a prefix,
never rewritten), and replaces `current_prediction` with the mean prediction;
it computes no reward. -/
theorem c2_report_behaviour (pm : PredictionMarket) (s m : ℝ) :
    (pm.report s m).sampled_prediction_history =
        pm.sampled_prediction_history ++ [s]
      ∧ (pm.report s m).mean_prediction_history =
        pm.mean_prediction_history ++ [m]
      ∧ (pm.report s m).current_prediction = m
      ∧ (pm.report s m).no = pm.no
      ∧ (pm.report s m).mean_prediction_history.take
          pm.mean_prediction_history.length = pm.mean_prediction_history := by
  refine ⟨rfl, rfl, rfl, rfl, ?_⟩
  simp [PredictionMarket.report, List.take_append]

/-- The two-outcome probability tuple `[p, 1 - p]` built by the resolve
methods from a probability of the RED outcome. -/
noncomputable def probTuple (p : ℝ) : List ℝ := [p, 1 - p]

/-- The logarithmic score `log(tuple[o])` of a RED-probability `p` at the
materialised outcome index `o`. -/
noncomputable def logScoreOf (p : ℝ) (o : Nat) : ℝ :=
  Real.log ((probTuple p).getD o 0)

/-- The Brier-style score `tuple[o] - Σ tuple² / 2` of a RED-probability `p`
at the materialised outcome index `o`. -/
noncomputable def brierScoreOf (p : ℝ) (o : Nat) : ℝ :=
  (probTuple p).getD o 0 - ((probTuple p).map (fun x => x ^ 2)).sum / 2

/-- `PredictionMarket.log_resolve(materialised_index)` (`Environment.py`
lines 85-94): for each report `i` (skipping the initial one), the difference
between the log score of `expit(sampled_prediction_history[i+1])` and that of
`expit(mean_prediction_history[i])` at the materialised index. -/
noncomputable def PredictionMarket.log_resolve (pm : PredictionMarket)
    (o : Nat) : List ℝ :=
  (List.range (pm.sampled_prediction_history.length - 1)).map (fun i =>
    logScoreOf (expit (pm.sampled_prediction_history.getD (i + 1) 0)) o -
      logScoreOf (expit (pm.mean_prediction_history.getD i 0)) o)

/-- `PredictionMarket.brier_resolve(materialised_index)` (`Environment.py`
lines 96-106): same shape as `log_resolve` with the quadratic (Brier) score. -/
noncomputable def PredictionMarket.brier_resolve (pm : PredictionMarket)
    (o : Nat) : List ℝ :=
  (List.range (pm.sampled_prediction_history.length - 1)).map (fun i =>
    brierScoreOf (expit (pm.sampled_prediction_history.getD (i + 1) 0)) o -
      brierScoreOf (expit (pm.mean_prediction_history.getD i 0)) o)

/-- `PredictionMarket.resolve(score_func, materialised_index)`
(`Environment.py` lines 108-114): dispatch on the score-function tag, raising
`ValueError` for anything that is not a `ScoreFunction` member. -/
noncomputable def PredictionMarket.resolve (pm : PredictionMarket)
    (score_func : ScoreTag) (o : Nat) : Except String (List ℝ) :=
  match score_func with
  | .LOG => .ok (pm.log_resolve o)
  | .QUADRATIC => .ok (pm.brier_resolve o)
  | .invalid _ => .error "The score function does not exist."

/-- A sequence of `(sampled, mean)` reports applied in order. -/
def reportSeq (pm : PredictionMarket) (xs : List (ℝ × ℝ)) : PredictionMarket :=
  xs.foldl (fun m r => m.report r.1 r.2) pm

/- Positivity and monotonicity facts about `expit`. -/

lemma expit_pos (x : ℝ) : 0 < expit x := by
  unfold expit
  positivity

lemma expit_lt_expit {x y : ℝ} (h : x < y) : expit x < expit y := by
  unfold expit
  have hy : (0 : ℝ) < 1 + Real.exp (-y) := by positivity
  have hxy : Real.exp (-y) < Real.exp (-x) := Real.exp_lt_exp.mpr (neg_lt_neg h)
  exact one_div_lt_one_div_of_lt hy (by linarith)

lemma log_expit_ne : Real.log (expit 1) - Real.log (expit 0) ≠ 0 := by
  have h := expit_lt_expit (show (0 : ℝ) < 1 by norm_num)
  have := Real.log_lt_log (expit_pos 0) h
  exact sub_ne_zero.mpr (ne_of_gt this)

/-- Telescoping of successive differences over `List.range`. -/
lemma telescope_sum (g : Nat → ℝ) (n : Nat) :
    ((List.range n).map (fun i => g (i + 1) - g i)).sum = g n - g 0 := by
  induction n with
  | zero => simp
  | succ k ih => simp [List.range_succ, ih]

/-- State of a prediction market after a sequence of reports in which every
report passes equal sampled and mean values. -/
lemma reportSeq_spec (xs : List (ℝ × ℝ)) (pm : PredictionMarket)
    (hpm : pm.sampled_prediction_history = pm.mean_prediction_history)
    (hx : ∀ r ∈ xs, r.1 = r.2) :
    (reportSeq pm xs).sampled_prediction_history =
        (reportSeq pm xs).mean_prediction_history
      ∧ (reportSeq pm xs).mean_prediction_history =
        pm.mean_prediction_history ++ xs.map Prod.snd
      ∧ (reportSeq pm xs).current_prediction =
        (pm.current_prediction :: xs.map Prod.snd).getD (xs.map Prod.snd).length 0 := by
  induction xs generalizing pm with
  | nil => simp [reportSeq, hpm]
  | cons r rest ih =>
    have hr : r.1 = r.2 := hx r (by simp)
    have hrest : ∀ q ∈ rest, q.1 = q.2 := fun q hq => hx q (by simp [hq])
    have hstep : reportSeq pm (r :: rest) = reportSeq (pm.report r.1 r.2) rest := rfl
    have hpm2 : (pm.report r.1 r.2).sampled_prediction_history =
        (pm.report r.1 r.2).mean_prediction_history := by
      simp [PredictionMarket.report, hpm, hr]
    obtain ⟨h1, h2, h3⟩ := ih (pm.report r.1 r.2) hpm2 hrest
    refine ⟨by rw [hstep]; exact h1, ?_, ?_⟩
    · rw [hstep, h2]
      simp [PredictionMarket.report, hr]
    · rw [hstep, h3]
      simp [PredictionMarket.report]

/-- Counterexample to claim C4: one report with distinct sampled and mean
values (sampled 1, mean 0) on a market with prior 0. The per-step score uses
the sampled history for the current belief but the mean history for the
previous belief, so the sum is `log(expit 1) − log(expit 0) ≠ 0`, while the
final and initial beliefs of the market coincide (both `expit 0`), making the
claimed telescoped total `0`. -/
theorem c4_counterexample :
    (((pmInit 0 0).report 1 0).log_resolve 0).sum ≠
      logScoreOf (expit ((pmInit 0 0).report 1 0).current_prediction) 0 -
        logScoreOf (expit 0) 0 := by
  have hL : (((pmInit 0 0).report 1 0).log_resolve 0).sum =
      Real.log (expit 1) - Real.log (expit 0) := by
    simp [PredictionMarket.log_resolve, pmInit, PredictionMarket.report,
      List.range_succ, logScoreOf, probTuple]
  have hR : logScoreOf (expit ((pmInit 0 0).report 1 0).current_prediction) 0 -
      logScoreOf (expit 0) 0 = 0 := by
    simp [pmInit, PredictionMarket.report]
  rw [hL, hR]
  exact log_expit_ne

/-- Claim C4 (amended): when every report passes equal sampled and mean
values (the single-trader usage, where one value is reported to both
histories), the per-step `log_resolve` scores telescope: their sum equals the
log score of the final current belief minus the log score of the initial
prior at the materialised outcome. With distinct sampled and mean values the
sum does not telescope, since the current belief of each step is read from
the sampled history while the previous belief is read from the mean
history. -/
theorem c4_telescoping (n : Nat) (p0 : ℝ) (xs : List (ℝ × ℝ)) (o : Nat)
    (hx : ∀ r ∈ xs, r.1 = r.2) :
    ((reportSeq (pmInit n p0) xs).log_resolve o).sum =
      logScoreOf (expit ((reportSeq (pmInit n p0) xs).current_prediction)) o -
        logScoreOf (expit p0) o := by
  obtain ⟨h1, h2, h3⟩ := reportSeq_spec xs (pmInit n p0) rfl hx
  set pmf := reportSeq (pmInit n p0) xs with hpmf
  have hmean : pmf.mean_prediction_history = p0 :: xs.map Prod.snd := by
    rw [h2]; simp [pmInit]
  have hsam : pmf.sampled_prediction_history = p0 :: xs.map Prod.snd := by
    rw [h1, hmean]
  have hcur : pmf.current_prediction =
      (p0 :: xs.map Prod.snd).getD (xs.map Prod.snd).length 0 := by
    rw [h3]; simp [pmInit]
  have hlen : pmf.sampled_prediction_history.length - 1 = (xs.map Prod.snd).length := by
    rw [hsam]; simp
  unfold PredictionMarket.log_resolve
  rw [hlen, hsam, hmean, hcur]
  exact telescope_sum
    (fun i => logScoreOf (expit ((p0 :: xs.map Prod.snd).getD i 0)) o)
    (xs.map Prod.snd).length

/-- Witness for C4: a two-report sequence with equal sampled and mean values. -/
theorem c4_witness :
    (∀ r ∈ [((1 : ℝ), (1 : ℝ)), ((2 : ℝ), (2 : ℝ))], r.1 = r.2) ∧
    ((reportSeq (pmInit 0 0) [(1, 1), (2, 2)]).log_resolve 0).sum =
      logScoreOf (expit ((reportSeq (pmInit 0 0) [(1, 1), (2, 2)]).current_prediction)) 0 -
        logScoreOf (expit 0) 0 :=
  ⟨by simp, c4_telescoping 0 0 [(1, 1), (2, 2)] 0 (by simp)⟩

/-- The sparse weight matrix built inside `BayesianUpdateMat`
(`Environment.py` lines 59-68): for each option `j`, row `3j` carries
`log(pr_rs_ru) − log(pr_rs_bu)` (a RED ball), row `3j+1` carries
`log(1−pr_rs_ru) − log(1−pr_rs_bu)` (a BLUE ball), and row `3j+2` carries a
unit passthrough for the prior logit; all other entries are zero. -/
noncomputable def bayesTheta (pr_rs_ru pr_rs_bu : ℝ) (i j : Nat) : ℝ :=
  if i = 3 * j + 2 then 1
  else if i = 3 * j then Real.log pr_rs_ru - Real.log pr_rs_bu
  else if i = 3 * j + 1 then Real.log (1 - pr_rs_ru) - Real.log (1 - pr_rs_bu)
  else 0

/-- `BayesianUpdateMat(signal_mat, pr_rs_ru, pr_rs_bu)`: multiplies the
signal feature row vector by the sparse matrix, producing one log-odds value
per option. -/
noncomputable def BayesianUpdateMat (signal_mat : List ℝ)
    (pr_rs_ru pr_rs_bu : ℝ) : List ℝ :=
  let action_num := signal_mat.length / 3
  (List.range action_num).map (fun k =>
    ((List.range (3 * action_num)).map (fun i =>
      signal_mat.getD i 0 * bayesTheta pr_rs_ru pr_rs_bu i k)).sum)

/-- `signal_encode(ball_colour, bucket_no, prior_pair)` (`Environment.py`
lines 365-371): a length-6 feature row with the two prior logits in slots 2
and 5 and a unit bump at slot `3·bucket_no + ball value`. -/
noncomputable def signal_encode (ball_colour : Ball) (bucket_no : Nat)
    (prior_pair : ℝ × ℝ) : List ℝ :=
  let base : List ℝ := [0, 0, prior_pair.1, 0, 0, prior_pair.2]
  let idx := bucket_no * 3 + ball_colour.value
  base.set idx (base.getD idx 0 + 1)

/-- The central log-odds identity: the logit of the two-hypothesis posterior
is the prior logit plus the log-likelihood ratio. -/
lemma logit_bayes (p a b : ℝ) (hp0 : 0 < p) (hp1 : p < 1)
    (ha : 0 < a) (hb : 0 < b) :
    logit (p * a / (p * a + (1 - p) * b)) =
      logit p + (Real.log a - Real.log b) := by
  have h1p : 0 < 1 - p := by linarith
  have hpa : 0 < p * a := mul_pos hp0 ha
  have hpb : 0 < (1 - p) * b := mul_pos h1p hb
  have hD : 0 < p * a + (1 - p) * b := by linarith
  have hfrac : p * a / (p * a + (1 - p) * b) /
      (1 - p * a / (p * a + (1 - p) * b)) = p * a / ((1 - p) * b) := by
    have h1x : 1 - p * a / (p * a + (1 - p) * b) =
        (1 - p) * b / (p * a + (1 - p) * b) := by
      field_simp
    rw [h1x, div_div_div_cancel_right₀ hD.ne']
  unfold logit
  rw [hfrac, Real.log_div hpa.ne' hpb.ne', Real.log_mul hp0.ne' ha.ne',
    Real.log_mul h1p.ne' hb.ne', Real.log_div hp0.ne' h1p.ne']
  ring

/-- Claim C5: on the single-signal feature encoding (one ball on one option,
prior logits carried in the third slot of each option block),
`BayesianUpdateMat` returns per option exactly the logit of the posterior
that `NaiveBayesOneIter` computes in probability space — proved as an exact
identity over the reals. -/
theorem c5_logit_equiv (p q a b : ℝ) (hp0 : 0 < p) (hp1 : p < 1)
    (hq0 : 0 < q) (hq1 : q < 1) (ha0 : 0 < a) (ha1 : a < 1)
    (hb0 : 0 < b) (hb1 : b < 1) (ball : Ball) (bno : Nat) (hbno : bno < 2) :
    BayesianUpdateMat (signal_encode ball bno (logit p, logit q)) a b =
      (NaiveBayesOneIter [p, q] ball bno a b).map logit := by
  have hred_p := logit_bayes p a b hp0 hp1 ha0 hb0
  have hred_q := logit_bayes q a b hq0 hq1 ha0 hb0
  have hblue_p := logit_bayes p (1 - a) (1 - b) hp0 hp1 (by linarith) (by linarith)
  have hblue_q := logit_bayes q (1 - a) (1 - b) hq0 hq1 (by linarith) (by linarith)
  interval_cases bno <;> cases ball <;>
    simp only [BayesianUpdateMat, signal_encode, bayesTheta, NaiveBayesOneIter,
      Ball.value] <;>
    norm_num [List.range_succ] <;>
    simp only [hred_p, hred_q, hblue_p, hblue_q] <;>
    ring

/-- Witness for C5 at the spec's concrete parameters. -/
theorem c5_witness :
    (0 : ℝ) < 3 / 4 ∧
    BayesianUpdateMat (signal_encode Ball.RED 0 (logit (3/4), logit (1/4)))
        (2/3) (1/3) =
      (NaiveBayesOneIter [3/4, 1/4] Ball.RED 0 (2/3) (1/3)).map logit :=
  ⟨by norm_num,
    c5_logit_equiv (3/4) (1/4) (2/3) (1/3) (by norm_num) (by norm_num)
      (by norm_num) (by norm_num) (by norm_num) (by norm_num) (by norm_num)
      (by norm_num) Ball.RED 0 (by norm_num)⟩

/-- The `Bucket` class state. The hidden `colour` is drawn once at
construction (`np.random.choice`); the draw's outcome is passed in
explicitly here. The Python constructor also asserts that the three
probability parameters lie in `[0, 1]`. -/
structure Bucket where
  no : Nat
  prior_red : ℝ
  pr_red_ball_red_bucket : ℝ
  pr_red_ball_blue_bucket : ℝ
  colour : BucketColour

instance : Inhabited Bucket := ⟨⟨0, 0, 0, 0, BucketColour.RED⟩⟩

/-- The `DecisionMarket` class state (`Environment.py` lines 117-170). -/
structure DecisionMarket where
  conditional_market_num : Nat
  conditional_market_list : List PredictionMarket
  decision_rule : RuleTag
  preferred_colour : BucketColour
  preferred_colour_pr_list : List ℝ

/-- `DecisionMarket.__init__`: one `PredictionMarket` per entry of
`zip(range(action_num), prior_red_instances)`. -/
def dmInit (action_num : Nat) (prior_red_instances : List ℝ) (rule : RuleTag)
    (preferred_colour : BucketColour) (pr_list : List ℝ) : DecisionMarket :=
  ⟨action_num,
    ((List.range action_num).zip prior_red_instances).map (fun x => pmInit x.1 x.2),
    rule, preferred_colour, pr_list⟩

/-- `DecisionMarket.read_current_pred`: the list of current predictions. -/
def DecisionMarket.read_current_pred (dm : DecisionMarket) : List ℝ :=
  dm.conditional_market_list.map (fun pm => pm.current_prediction)

/-- The maximum of a list of reals (`0` for the empty list). -/
noncomputable def listMax : List ℝ → ℝ
  | [] => 0
  | [a] => a
  | a :: b :: rest => max a (listMax (b :: rest))

/-- `np.argmax`: the first index attaining the maximum (`0` on `[]`). -/
noncomputable def argmaxIdx : List ℝ → Nat
  | [] => 0
  | [_] => 0
  | a :: b :: rest =>
      if listMax (b :: rest) ≤ a then 0 else argmaxIdx (b :: rest) + 1

lemma le_listMax (l : List ℝ) (j : Nat) (hj : j < l.length) :
    l.getD j 0 ≤ listMax l := by
  induction l generalizing j with
  | nil => simp at hj
  | cons a t ih =>
    cases t with
    | nil =>
      have hj0 : j = 0 := by simp at hj; omega
      subst hj0
      simp [listMax]
    | cons b r =>
      cases j with
      | zero => simp [listMax]
      | succ k =>
        have := ih k (by simpa using hj)
        simp only [listMax, List.getD_cons_succ]
        exact le_trans this (le_max_right _ _)

lemma argmaxIdx_lt_length (l : List ℝ) (h : l ≠ []) :
    argmaxIdx l < l.length := by
  induction l with
  | nil => exact absurd rfl h
  | cons a t ih =>
    cases t with
    | nil => simp [argmaxIdx]
    | cons b r =>
      by_cases hc : listMax (b :: r) ≤ a
      · simp [argmaxIdx, hc]
      · have h2 : argmaxIdx (b :: r) < r.length + 1 := by
          simpa using ih (by simp)
        simp only [argmaxIdx, hc, if_false, List.length_cons]
        omega

lemma getD_argmaxIdx (l : List ℝ) (h : l ≠ []) :
    l.getD (argmaxIdx l) 0 = listMax l := by
  induction l with
  | nil => exact absurd rfl h
  | cons a t ih =>
    cases t with
    | nil => simp [argmaxIdx, listMax]
    | cons b r =>
      by_cases hc : listMax (b :: r) ≤ a
      · simp [argmaxIdx, listMax, hc, max_eq_left hc]
      · have hlt : a < listMax (b :: r) := lt_of_not_le hc
        have := ih (by simp)
        simp only [argmaxIdx, listMax, hc, if_false, List.getD_cons_succ]
        rw [this, max_eq_right (le_of_lt hlt)]

/-- `sorted(self.conditional_market_list, key=..., reverse=True)`: a stable
sort of the markets by current prediction, descending. -/
noncomputable def sortedMarkets (l : List PredictionMarket) :
    List PredictionMarket :=
  List.insertionSort
    (fun x y => y.current_prediction ≤ x.current_prediction) l

/-- The per-market score list under a score-function tag (the match
performed in each branch of the resolve methods). -/
noncomputable def pmScores (sf : ScoreTag) (pm : PredictionMarket) (o : Nat) :
    List ℝ :=
  match sf with
  | .LOG => pm.log_resolve o
  | .QUADRATIC => pm.brier_resolve o
  | .invalid _ => []

/-- The stochastic branch of `DecisionMarket.resolve` (`Environment.py`
lines 146-163), with the random rank draw externalised: `r` is the rank the
generator chose (rank `r` is drawn with probability
`preferred_colour_pr_list[r]`). The reward of the chosen market is divided
by that probability; the returned index is the chosen market's `no`. -/
noncomputable def DecisionMarket.resolveStochAt (dm : DecisionMarket)
    (sf : ScoreTag) (buckets : List Bucket) (r : Nat) :
    Except String (List ℝ × Nat) :=
  let sorted := sortedMarkets dm.conditional_market_list
  let pr := dm.preferred_colour_pr_list.getD r 0
  let cm := sorted.getD r default
  let index := cm.no
  let bucket := buckets.getD index default
  match sf with
  | .LOG => .ok ((cm.log_resolve bucket.colour.value).map (fun x => x / pr), index)
  | .QUADRATIC =>
      .ok ((cm.brier_resolve bucket.colour.value).map (fun x => x / pr), index)
  | .invalid _ => .error "The score function does not exist."

/-- `DecisionMarket.resolve(score_func, buckets)` (`Environment.py` lines
131-165): the deterministic branch is taken when the rule equals
`DETERMINISTIC` **or** there is exactly one market; every other rule value
falls through to the stochastic branch. -/
noncomputable def DecisionMarket.resolve (dm : DecisionMarket) (sf : ScoreTag)
    (buckets : List Bucket) (r : Nat) : Except String (List ℝ × Nat) :=
  if dm.decision_rule = RuleTag.DETERMINISTIC ∨ dm.conditional_market_num = 1 then
    let index := argmaxIdx dm.read_current_pred
    let cm := dm.conditional_market_list.getD index default
    let bucket := buckets.getD index default
    match sf with
    | .LOG => .ok (cm.log_resolve bucket.colour.value, index)
    | .QUADRATIC => .ok (cm.brier_resolve bucket.colour.value, index)
    | .invalid _ => .error "The score function does not exist."
  else
    dm.resolveStochAt sf buckets r

/-- The reward vector entry `i` produced by the stochastic branch when the
generator draws rank `r` (`0` if resolution errors). -/
noncomputable def stochRewardAt (dm : DecisionMarket) (sf : ScoreTag)
    (buckets : List Bucket) (r i : Nat) : ℝ :=
  match dm.resolveStochAt sf buckets r with
  | .ok res => res.1.getD i 0
  | .error _ => 0

/-- The expectation over the rank draw of the stochastic branch's reward
entry `i`: rank `r` is drawn with probability `preferred_colour_pr_list[r]`. -/
noncomputable def stochExpectedReward (dm : DecisionMarket) (sf : ScoreTag)
    (buckets : List Bucket) (i : Nat) : ℝ :=
  ((List.range dm.conditional_market_num).map (fun r =>
    dm.preferred_colour_pr_list.getD r 0 * stochRewardAt dm sf buckets r i)).sum

/-- The reward vector entry `i` the DETERMINISTIC rule would assign for the
same markets and buckets (`0` if resolution errors). -/
noncomputable def detReward (dm : DecisionMarket) (sf : ScoreTag)
    (buckets : List Bucket) (r i : Nat) : ℝ :=
  match ({dm with decision_rule := RuleTag.DETERMINISTIC} : DecisionMarket).resolve
      sf buckets r with
  | .ok res => res.1.getD i 0
  | .error _ => 0

lemma lgetD_map_div (l : List ℝ) (c : ℝ) (i : Nat) :
    (l.map (fun x => x / c)).getD i 0 = l.getD i 0 / c := by
  induction l generalizing i with
  | nil => simp
  | cons a t ih =>
    cases i with
    | zero => simp
    | succ k => simpa using ih k

lemma range_map_getD_sum {α : Type} (l : List α) (d : α) (F : α → ℝ) :
    ((List.range l.length).map (fun r => F (l.getD r d))).sum = (l.map F).sum := by
  induction l with
  | nil => simp
  | cons a t ih =>
    have hfun : (fun r => F ((a :: t).getD r d)) ∘ Nat.succ =
        fun r => F (t.getD r d) := by
      funext r
      simp
    rw [List.length_cons, List.range_succ_eq_map, List.map_cons, List.map_map,
      List.sum_cons, List.getD_cons_zero, hfun, ih, List.map_cons, List.sum_cons]

lemma length_sortedMarkets (l : List PredictionMarket) :
    (sortedMarkets l).length = l.length :=
  List.length_insertionSort _ l

lemma perm_sortedMarkets (l : List PredictionMarket) :
    (sortedMarkets l).Perm l :=
  List.perm_insertionSort _ l

/-- Evaluation of the stochastic branch for a valid score-function tag. -/
lemma resolveStochAt_eval (dm : DecisionMarket) (sf : ScoreTag)
    (buckets : List Bucket) (r : Nat)
    (hsf : sf = ScoreTag.LOG ∨ sf = ScoreTag.QUADRATIC) :
    dm.resolveStochAt sf buckets r =
      .ok ((pmScores sf
              ((sortedMarkets dm.conditional_market_list).getD r default)
              ((buckets.getD
                  ((sortedMarkets dm.conditional_market_list).getD r default).no
                  default).colour.value)).map
            (fun x => x / dm.preferred_colour_pr_list.getD r 0),
          ((sortedMarkets dm.conditional_market_list).getD r default).no) := by
  rcases hsf with h | h <;> subst h <;> rfl

/-- Evaluation of the deterministic branch for a valid score-function tag. -/
lemma resolve_det (dm : DecisionMarket) (sf : ScoreTag)
    (buckets : List Bucket) (r : Nat)
    (hrule : dm.decision_rule = RuleTag.DETERMINISTIC ∨
      dm.conditional_market_num = 1)
    (hsf : sf = ScoreTag.LOG ∨ sf = ScoreTag.QUADRATIC) :
    dm.resolve sf buckets r =
      .ok (pmScores sf
            (dm.conditional_market_list.getD (argmaxIdx dm.read_current_pred) default)
            ((buckets.getD (argmaxIdx dm.read_current_pred) default).colour.value),
          argmaxIdx dm.read_current_pred) := by
  unfold DecisionMarket.resolve
  rw [if_pos hrule]
  rcases hsf with h | h <;> subst h <;> rfl

/-- Claim C6: under the DETERMINISTIC rule, or with exactly one market under
any rule, `DecisionMarket.resolve` picks the (first) index whose market has
the highest current prediction, returns the pair of that market's score list
under the chosen scoring rule and that index, and depends on no other
market: replacing any non-selected market (keeping its current prediction)
leaves the result unchanged — only the selected option's market is resolved,
every other option carries zero reward for the round. -/
theorem c6_deterministic_resolve (dm : DecisionMarket) (sf : ScoreTag)
    (buckets : List Bucket) (r : Nat)
    (hrule : dm.decision_rule = RuleTag.DETERMINISTIC ∨
      dm.conditional_market_num = 1)
    (hsf : sf = ScoreTag.LOG ∨ sf = ScoreTag.QUADRATIC)
    (hne : dm.conditional_market_list ≠ []) :
    dm.resolve sf buckets r =
      .ok (pmScores sf
            (dm.conditional_market_list.getD (argmaxIdx dm.read_current_pred) default)
            ((buckets.getD (argmaxIdx dm.read_current_pred) default).colour.value),
          argmaxIdx dm.read_current_pred)
    ∧ argmaxIdx dm.read_current_pred < dm.conditional_market_list.length
    ∧ (∀ j, j < dm.conditional_market_list.length →
        (dm.conditional_market_list.getD j default).current_prediction ≤
          (dm.conditional_market_list.getD (argmaxIdx dm.read_current_pred)
            default).current_prediction)
    ∧ (∀ (j : Nat) (m2 : PredictionMarket),
        j < dm.conditional_market_list.length →
        j ≠ argmaxIdx dm.read_current_pred →
        m2.current_prediction =
          (dm.conditional_market_list.getD j default).current_prediction →
        ({dm with conditional_market_list :=
            dm.conditional_market_list.set j m2} : DecisionMarket).resolve
              sf buckets r =
          dm.resolve sf buckets r) := by
  have hre : dm.read_current_pred =
      dm.conditional_market_list.map (fun pm => pm.current_prediction) := rfl
  have hread : dm.read_current_pred ≠ [] := by
    rw [hre]
    simpa using hne
  have hlen : dm.read_current_pred.length = dm.conditional_market_list.length := by
    rw [hre]
    simp
  have hidx : argmaxIdx dm.read_current_pred < dm.conditional_market_list.length := by
    rw [← hlen]
    exact argmaxIdx_lt_length _ hread
  refine ⟨resolve_det dm sf buckets r hrule hsf, hidx, ?_, ?_⟩
  · intro j hj
    have e1 : (dm.conditional_market_list.map
        (fun pm => pm.current_prediction)).getD j 0 =
        (dm.conditional_market_list.getD j default).current_prediction :=
      lgetD_map _ dm.conditional_market_list j default 0 hj
    have e2 : (dm.conditional_market_list.map
        (fun pm => pm.current_prediction)).getD
          (argmaxIdx dm.read_current_pred) 0 =
        (dm.conditional_market_list.getD (argmaxIdx dm.read_current_pred)
          default).current_prediction :=
      lgetD_map _ dm.conditional_market_list _ default 0 hidx
    have e3 := le_listMax dm.read_current_pred j (by rw [hlen]; exact hj)
    have e4 := getD_argmaxIdx dm.read_current_pred hread
    rw [hre] at e3 e4
    rw [← e1, ← e2, hre, e4]
    exact e3
  · intro j m2 hj hja hcur
    have hset : (dm.conditional_market_list.set j m2).map
        (fun pm => pm.current_prediction) =
        dm.conditional_market_list.map (fun pm => pm.current_prediction) := by
      rw [lset_map]
      apply lset_self _ _ _ 0 (by simpa using hj)
      rw [lgetD_map (fun pm => pm.current_prediction)
        dm.conditional_market_list j default 0 hj, hcur]
    have hcm : (dm.conditional_market_list.set j m2).getD
        (argmaxIdx dm.read_current_pred) default =
        dm.conditional_market_list.getD (argmaxIdx dm.read_current_pred) default :=
      lgetD_set_ne _ _ _ _ _ (Ne.symm hja)
    unfold DecisionMarket.resolve
    have hre2 : ({dm with conditional_market_list :=
        dm.conditional_market_list.set j m2} : DecisionMarket).read_current_pred =
        dm.read_current_pred := by
      rw [hre]
      exact hset
    simp only [hre2, hcm]
    rw [if_pos hrule, if_pos hrule]

noncomputable def dmW : DecisionMarket :=
  dmInit 1 [1/2] RuleTag.STOCHASTIC BucketColour.RED [1]

noncomputable def bW : Bucket := ⟨0, 3/4, 2/3, 1/3, BucketColour.RED⟩

/-- Witness for C6: a single-market decision market under the STOCHASTIC
rule still resolves through the deterministic branch. -/
theorem c6_witness :
    (dmW.decision_rule = RuleTag.DETERMINISTIC ∨
      dmW.conditional_market_num = 1) ∧
    (dmW.resolve ScoreTag.LOG [bW] 0 =
      .ok (pmScores ScoreTag.LOG
            (dmW.conditional_market_list.getD (argmaxIdx dmW.read_current_pred) default)
            (([bW].getD (argmaxIdx dmW.read_current_pred) default).colour.value),
          argmaxIdx dmW.read_current_pred)
    ∧ argmaxIdx dmW.read_current_pred < dmW.conditional_market_list.length
    ∧ (∀ j, j < dmW.conditional_market_list.length →
        (dmW.conditional_market_list.getD j default).current_prediction ≤
          (dmW.conditional_market_list.getD (argmaxIdx dmW.read_current_pred)
            default).current_prediction)
    ∧ (∀ (j : Nat) (m2 : PredictionMarket),
        j < dmW.conditional_market_list.length →
        j ≠ argmaxIdx dmW.read_current_pred →
        m2.current_prediction =
          (dmW.conditional_market_list.getD j default).current_prediction →
        ({dmW with conditional_market_list :=
            dmW.conditional_market_list.set j m2} : DecisionMarket).resolve
              ScoreTag.LOG [bW] 0 =
          dmW.resolve ScoreTag.LOG [bW] 0)) :=
  ⟨Or.inr rfl,
    c6_deterministic_resolve dmW ScoreTag.LOG [bW] 0 (Or.inr rfl) (Or.inl rfl)
      (by simp [dmW, dmInit])⟩

/-- Claim C8 (amended): an unknown score-function tag always raises
`ValueError` — in `PredictionMarket.resolve` and in both branches of
`DecisionMarket.resolve` — but an unknown decision-rule tag does **not**
fail: construction stores it unchecked and `resolve` treats any value other
than `DETERMINISTIC` as the stochastic case whenever more than one market is
present. -/
theorem c8_invalid_tags :
    (∀ (pm : PredictionMarket) (n o : Nat),
        pm.resolve (ScoreTag.invalid n) o =
          .error "The score function does not exist.")
    ∧ (∀ (dm : DecisionMarket) (n : Nat) (buckets : List Bucket) (r : Nat),
        dm.resolve (ScoreTag.invalid n) buckets r =
          .error "The score function does not exist.")
    ∧ (∀ (dm : DecisionMarket) (sf : ScoreTag) (buckets : List Bucket)
        (r m : Nat),
        dm.decision_rule = RuleTag.invalid m →
        dm.conditional_market_num ≠ 1 →
        dm.resolve sf buckets r = dm.resolveStochAt sf buckets r) := by
  refine ⟨fun pm n o => rfl, ?_, ?_⟩
  · intro dm n buckets r
    unfold DecisionMarket.resolve
    by_cases h : dm.decision_rule = RuleTag.DETERMINISTIC ∨
        dm.conditional_market_num = 1
    · rw [if_pos h]
    · rw [if_neg h]
      rfl
  · intro dm sf buckets r m h1 h2
    unfold DecisionMarket.resolve
    rw [if_neg]
    rintro (hd | hn)
    · rw [h1] at hd
      exact RuleTag.noConfusion hd
    · exact h2 hn

noncomputable def dmC8 : DecisionMarket :=
  dmInit 2 [0, 1] (RuleTag.invalid 0) BucketColour.RED [1/2, 1/2]

noncomputable def bC80 : Bucket := ⟨0, 3/4, 2/3, 1/3, BucketColour.RED⟩

noncomputable def bC81 : Bucket := ⟨1, 1/4, 2/3, 1/3, BucketColour.RED⟩

/-- Counterexample to claim C8: a decision market constructed with a
decision-rule tag that is neither STOCHASTIC nor DETERMINISTIC neither fails
at construction nor at `resolve`: with a valid score function it silently
resolves through the stochastic branch and returns a normal result. -/
theorem c8_counterexample :
    dmC8.resolve ScoreTag.LOG [bC80, bC81] 0 = .ok ([], 1) := by
  have hms : dmC8.conditional_market_list = [pmInit 0 0, pmInit 1 1] := by
    simp [dmC8, dmInit, List.range_succ]
  have hsort : sortedMarkets [pmInit 0 0, pmInit 1 1] =
      [pmInit 1 1, pmInit 0 0] := by
    unfold sortedMarkets
    simp only [List.insertionSort, List.orderedInsert]
    rw [if_neg]
    norm_num [pmInit]
  unfold DecisionMarket.resolve
  rw [if_neg (by simp [dmC8, dmInit])]
  unfold DecisionMarket.resolveStochAt
  rw [hms, hsort]
  simp [pmInit, PredictionMarket.log_resolve]

/-- Witness for C8: the amended theorem applied to the concrete market with
the invalid decision-rule tag. -/
theorem c8_witness :
    dmC8.resolve ScoreTag.LOG [bC80, bC81] 0 =
      dmC8.resolveStochAt ScoreTag.LOG [bC80, bC81] 0 :=
  c8_invalid_tags.2.2 dmC8 ScoreTag.LOG [bC80, bC81] 0 0 rfl (by decide)

/-- Claim C3 (amended): with more than one market the stochastic branch
sorts the markets by current prediction (descending), the generator draws
rank `r` with probability `preferred_colour_pr_list[r]` (bound to rank, not
to option identity) and the branch returns that rank's market scores divided
by `preferred_colour_pr_list[r]` together with that market's option index;
consequently the expectation of the returned reward over the rank draw
equals the **sum over all options of their scores** — the total score across
every ranked market, not the DETERMINISTIC-rule reward of the top-ranked
option alone. -/
theorem c3_stoch_expectation (dm : DecisionMarket) (sf : ScoreTag)
    (buckets : List Bucket) (i : Nat)
    (hlen : dm.conditional_market_num = dm.conditional_market_list.length)
    (hpr : ∀ r, r < dm.conditional_market_num →
      dm.preferred_colour_pr_list.getD r 0 ≠ 0)
    (hsf : sf = ScoreTag.LOG ∨ sf = ScoreTag.QUADRATIC) :
    (∀ r : Nat, dm.resolveStochAt sf buckets r =
      .ok ((pmScores sf
              ((sortedMarkets dm.conditional_market_list).getD r default)
              ((buckets.getD
                  ((sortedMarkets dm.conditional_market_list).getD r default).no
                  default).colour.value)).map
            (fun x => x / dm.preferred_colour_pr_list.getD r 0),
          ((sortedMarkets dm.conditional_market_list).getD r default).no))
    ∧ stochExpectedReward dm sf buckets i =
      (dm.conditional_market_list.map (fun m =>
        (pmScores sf m ((buckets.getD m.no default).colour.value)).getD i 0)).sum := by
  refine ⟨fun r => resolveStochAt_eval dm sf buckets r hsf, ?_⟩
  unfold stochExpectedReward
  have h2 : ∀ r, r < dm.conditional_market_num →
      dm.preferred_colour_pr_list.getD r 0 * stochRewardAt dm sf buckets r i =
      (pmScores sf ((sortedMarkets dm.conditional_market_list).getD r default)
          ((buckets.getD
              ((sortedMarkets dm.conditional_market_list).getD r default).no
              default).colour.value)).getD i 0 := by
    intro r hr
    unfold stochRewardAt
    rw [resolveStochAt_eval dm sf buckets r hsf]
    simp only []
    rw [lgetD_map_div, mul_comm, div_mul_cancel₀ _ (hpr r hr)]
  rw [List.map_congr_left (fun r hr => h2 r (List.mem_range.mp hr))]
  rw [hlen, ← length_sortedMarkets dm.conditional_market_list]
  rw [range_map_getD_sum (sortedMarkets dm.conditional_market_list) default
    (fun m => (pmScores sf m ((buckets.getD m.no default).colour.value)).getD i 0)]
  exact ((perm_sortedMarkets dm.conditional_market_list).map _).sum_eq

noncomputable def pmA : PredictionMarket := (pmInit 0 5).report 5 5

noncomputable def pmB : PredictionMarket := (pmInit 1 0).report 1 0

noncomputable def dmC3 : DecisionMarket :=
  ⟨2, [pmA, pmB], RuleTag.STOCHASTIC, BucketColour.RED, [4/5, 1/5]⟩

/-- Counterexample to claim C3: two markets, the top-ranked one with a zero
score (reports equal to its prior) and the second-ranked one with a nonzero
score. The expectation of the stochastic reward over the rank draw is the
total score `log(expit 1) − log(expit 0) ≠ 0`, while the DETERMINISTIC rule
would reward the top-ranked option `0`. -/
theorem c3_counterexample :
    stochExpectedReward dmC3 ScoreTag.LOG [bC80, bC81] 0 ≠
      detReward dmC3 ScoreTag.LOG [bC80, bC81] 0 0 := by
  have hsort : sortedMarkets [pmA, pmB] = [pmA, pmB] := by
    unfold sortedMarkets
    simp only [List.insertionSort, List.orderedInsert]
    rw [if_pos]
    norm_num [pmA, pmB, pmInit, PredictionMarket.report]
  have hA : pmA.log_resolve 0 = [0] := by
    simp [pmA, pmInit, PredictionMarket.report, PredictionMarket.log_resolve,
      List.range_succ]
  have hB : pmB.log_resolve 0 = [Real.log (expit 1) - Real.log (expit 0)] := by
    simp [pmB, pmInit, PredictionMarket.report, PredictionMarket.log_resolve,
      List.range_succ, logScoreOf, probTuple]
  have h0 : stochRewardAt dmC3 ScoreTag.LOG [bC80, bC81] 0 0 = 0 := by
    unfold stochRewardAt
    rw [resolveStochAt_eval dmC3 ScoreTag.LOG [bC80, bC81] 0 (Or.inl rfl)]
    simp only []
    rw [lgetD_map_div]
    rw [show dmC3.conditional_market_list = [pmA, pmB] from rfl, hsort]
    simp only [List.getD_cons_zero]
    rw [show pmA.no = 0 from rfl]
    simp only [List.getD_cons_zero]
    rw [show bC80.colour.value = 0 from rfl]
    rw [show pmScores ScoreTag.LOG pmA 0 = pmA.log_resolve 0 from rfl, hA]
    simp
  have h1 : stochRewardAt dmC3 ScoreTag.LOG [bC80, bC81] 1 0 =
      (Real.log (expit 1) - Real.log (expit 0)) / (1/5) := by
    unfold stochRewardAt
    rw [resolveStochAt_eval dmC3 ScoreTag.LOG [bC80, bC81] 1 (Or.inl rfl)]
    simp only []
    rw [lgetD_map_div]
    rw [show dmC3.conditional_market_list = [pmA, pmB] from rfl, hsort]
    simp only [List.getD_cons_succ, List.getD_cons_zero]
    rw [show pmB.no = 1 from rfl]
    simp only [List.getD_cons_succ, List.getD_cons_zero]
    rw [show bC81.colour.value = 0 from rfl]
    rw [show pmScores ScoreTag.LOG pmB 0 = pmB.log_resolve 0 from rfl, hB]
    rw [show dmC3.preferred_colour_pr_list = [4/5, 1/5] from rfl]
    simp
  have hL : stochExpectedReward dmC3 ScoreTag.LOG [bC80, bC81] 0 =
      Real.log (expit 1) - Real.log (expit 0) := by
    unfold stochExpectedReward
    rw [show dmC3.conditional_market_num = 2 from rfl,
      show List.range 2 = [0, 1] from rfl]
    simp only [List.map_cons, List.map_nil, List.sum_cons, List.sum_nil, h0, h1,
      show dmC3.preferred_colour_pr_list = [4/5, 1/5] from rfl]
    have hmul : (1/5 : ℝ) * ((Real.log (expit 1) - Real.log (expit 0)) / (1/5)) =
        Real.log (expit 1) - Real.log (expit 0) := by
      rw [mul_comm]
      exact div_mul_cancel₀ _ (by norm_num)
    simp only [List.getD_cons_zero, List.getD_cons_succ]
    rw [hmul]
    ring
  have hR : detReward dmC3 ScoreTag.LOG [bC80, bC81] 0 0 = 0 := by
    unfold detReward
    rw [resolve_det _ ScoreTag.LOG [bC80, bC81] 0 (Or.inl rfl) (Or.inl rfl)]
    simp only []
    rw [show ({dmC3 with decision_rule := RuleTag.DETERMINISTIC} :
        DecisionMarket).read_current_pred = [(5 : ℝ), 0] from rfl]
    rw [show argmaxIdx [(5 : ℝ), 0] = 0 from by norm_num [argmaxIdx, listMax]]
    rw [show ({dmC3 with decision_rule := RuleTag.DETERMINISTIC} :
        DecisionMarket).conditional_market_list = [pmA, pmB] from rfl]
    simp only [List.getD_cons_zero]
    rw [show bC80.colour.value = 0 from rfl]
    rw [show pmScores ScoreTag.LOG pmA 0 = pmA.log_resolve 0 from rfl, hA]
    simp
  rw [hL, hR]
  exact log_expit_ne

/-- Witness for C3: the amended theorem applied to a concrete one-market
decision market with selection probability 1. -/
theorem c3_witness :
    (∀ r, r < dmW.conditional_market_num →
      dmW.preferred_colour_pr_list.getD r 0 ≠ 0) ∧
    ((∀ r : Nat, dmW.resolveStochAt ScoreTag.LOG [bW] r =
      .ok ((pmScores ScoreTag.LOG
              ((sortedMarkets dmW.conditional_market_list).getD r default)
              (([bW].getD
                  ((sortedMarkets dmW.conditional_market_list).getD r default).no
                  default).colour.value)).map
            (fun x => x / dmW.preferred_colour_pr_list.getD r 0),
          ((sortedMarkets dmW.conditional_market_list).getD r default).no))
    ∧ stochExpectedReward dmW ScoreTag.LOG [bW] 0 =
      (dmW.conditional_market_list.map (fun m =>
        (pmScores ScoreTag.LOG m
          (([bW].getD m.no default).colour.value)).getD 0 0)).sum) := by
  have hpr : ∀ r, r < dmW.conditional_market_num →
      dmW.preferred_colour_pr_list.getD r 0 ≠ 0 := by
    intro r hr
    have hr0 : r = 0 := by
      have : dmW.conditional_market_num = 1 := rfl
      omega
    subst hr0
    norm_num [dmW, dmInit]
  exact ⟨hpr, c3_stoch_expectation dmW ScoreTag.LOG [bW] 0
    (by simp [dmW, dmInit]) hpr (Or.inl rfl)⟩

/-- The `Explorer` class state (`Environment.py` lines 229-261). -/
structure Explorer where
  action_num : Nat
  mean_array : List ℝ
  std_array : List ℝ
  theta_std : List (List ℝ)
  init_learning_rate : ℝ
  learning_rate : ℝ
  learning : Bool
  min_std : ℝ
  h_array : List ℝ

/-- `Explorer.__init__(feature_num, action_num, learning, init_learning_rate,
min_std)`: zero means, unit stds, a zero `feature_num·action_num × action_num`
weight matrix, and an empty cached action. -/
def explorerInit (feature_num action_num : Nat) (learning : Bool)
    (init_learning_rate min_std : ℝ) : Explorer :=
  ⟨action_num, List.replicate action_num 0, List.replicate action_num 1,
    List.replicate (feature_num * action_num) (List.replicate action_num 0),
    init_learning_rate, init_learning_rate, learning, min_std, []⟩

/-- `np.matmul(signal_array, M)` for a feature row vector and a matrix with
`cols` columns: entry `j` is the dot product of the signal with column `j`. -/
def matVec (signal : List ℝ) (M : List (List ℝ)) (cols : Nat) : List ℝ :=
  (List.range cols).map (fun j =>
    ((signal.zip M).map (fun p => p.1 * (p.2.getD j 0))).sum)

/-- `np.random.normal(loc=mean_array, scale=std_array)` with the underlying
standard-normal draws `z` externalised: elementwise `mean + std * z`. -/
def gaussSample (mean std z : List ℝ) : List ℝ :=
  (List.range mean.length).map (fun j =>
    mean.getD j 0 + std.getD j 0 * z.getD j 0)

/-- `Explorer.report(signal_array)` (`Environment.py` lines 249-255). In
learning mode the std array is recomputed as `exp(signal · theta_std)` and
then compared against the scalar floor with `if self.std_array <
self.min_std:` — numpy only defines the truth value of that elementwise
comparison for a single-element array and raises `ValueError` otherwise;
when the test fires, the whole array is replaced by the scalar `min_std`.
Finally a Gaussian action is sampled and cached in `h_array`. -/
noncomputable def Explorer.report (e : Explorer) (signal_array z : List ℝ) :
    Except String Explorer :=
  if e.learning then
    let std := (matVec signal_array e.theta_std e.action_num).map Real.exp
    if std.length = 1 then
      let std2 := if std.getD 0 0 < e.min_std then [e.min_std] else std
      .ok { e with std_array := std2, h_array := gaussSample e.mean_array std2 z }
    else
      .error "ValueError: the truth value of an array with more than one element is ambiguous"
  else
    .ok { e with h_array := gaussSample e.mean_array e.std_array z }

/-- `Explorer.update(reward, signal_array)` (`Environment.py` lines 257-261):
in learning mode, one gradient-ascent step
`theta_std += learning_rate * signal ⊗ (reward ⊙ ((h − mean)²/std² − 1))`,
the REINFORCE estimator for the log-std parameters; otherwise a no-op. -/
noncomputable def Explorer.update (e : Explorer) (reward signal_array : List ℝ) :
    Explorer :=
  if e.learning then
    let inner := (List.range e.action_num).map (fun j =>
      reward.getD j 0 * ((e.h_array.getD j 0 - e.mean_array.getD j 0) ^ 2 /
        (e.std_array.getD j 0) ^ 2 - 1))
    let gradient := signal_array.map (fun si => inner.map (fun x => si * x))
    let theta2 := List.zipWith
      (fun row grow => List.zipWith (fun t g => t + e.learning_rate * g) row grow)
      e.theta_std gradient
    { e with theta_std := theta2 }
  else e

/-- Claim C7 (failing input): an `Explorer` with `feature_num = 3`,
`action_num = 2` and `learning = True` — the configuration
`deterministic_training` builds when `explorer_learning` is enabled — raises
`ValueError` inside `report` instead of clipping the std array to `min_std`:
the recomputed std array has two elements, and numpy refuses to convert the
elementwise comparison `std_array < min_std` to a single truth value. -/
theorem c7_report_valueerror :
    (explorerInit 3 2 true (3/10000) (3/10)).report [1, 0, 0, 0, 0, 0] [0, 0] =
      .error "ValueError: the truth value of an array with more than one element is ambiguous" := by
  unfold Explorer.report
  simp [explorerInit, matVec]

lemma lgetD_zipWith {α β γ : Type} (f : α → β → γ) (l1 : List α) (l2 : List β)
    (i : Nat) (d1 : α) (d2 : β) (dg : γ) (h1 : i < l1.length)
    (h2 : i < l2.length) :
    (List.zipWith f l1 l2).getD i dg = f (l1.getD i d1) (l2.getD i d2) := by
  induction l1 generalizing l2 i with
  | nil => simp at h1
  | cons a t ih =>
    cases l2 with
    | nil => simp at h2
    | cons b s =>
      cases i with
      | zero => simp
      | succ k =>
        simp only [List.zipWith_cons_cons, List.getD_cons_succ]
        exact ih s k (by simpa using h1) (by simpa using h2)

lemma lgetD_range_map (f : Nat → ℝ) (A j : Nat) (h : j < A) :
    ((List.range A).map f).getD j 0 = f j := by
  rw [lgetD_map f (List.range A) j 0 0 (by simpa using h)]
  congr 1
  rw [List.getD_eq_getElem?_getD, List.getElem?_range h]
  rfl

/-- Claim C9: in learning mode `Explorer.update` adds to each weight
`theta_std[i][j]` exactly `learning_rate * signal[i] * (reward[j] *
((h[j] − mean[j])² / std[j]² − 1))` — one gradient-ascent step on the
REINFORCE estimator built from the cached `h_array` — and in non-learning
mode it is a no-op. -/
theorem c9_update_gradient (e : Explorer) (reward signal_array : List ℝ)
    (i j : Nat) (hi1 : i < e.theta_std.length) (hi2 : i < signal_array.length)
    (hj1 : j < (e.theta_std.getD i []).length) (hj2 : j < e.action_num) :
    (e.learning = true →
      ((e.update reward signal_array).theta_std.getD i []).getD j 0 =
        (e.theta_std.getD i []).getD j 0 +
          e.learning_rate * (signal_array.getD i 0 *
            (reward.getD j 0 *
              ((e.h_array.getD j 0 - e.mean_array.getD j 0) ^ 2 /
                (e.std_array.getD j 0) ^ 2 - 1))))
    ∧ (e.learning = false → e.update reward signal_array = e) := by
  constructor
  · intro hl
    unfold Explorer.update
    rw [hl]
    simp only [if_true]
    rw [lgetD_zipWith _ e.theta_std _ i [] [] [] hi1 (by simpa using hi2)]
    rw [lgetD_zipWith _ _ _ j 0 0 0 hj1 ?hb]
    case hb =>
      rw [lgetD_map _ signal_array i 0 [] hi2]
      simpa using hj2
    rw [lgetD_map _ signal_array i 0 [] hi2]
    rw [lgetD_map _ _ j 0 0 (by simpa using hj2)]
    rw [lgetD_range_map _ e.action_num j hj2]
  · intro hl
    unfold Explorer.update
    rw [hl]
    simp

/-- Witness for C9 at a concrete one-feature, one-action explorer. -/
theorem c9_witness :
    ((0 : Nat) < (⟨1, [0], [1], [[0]], 1/2, 1/2, true, 3/10, [4]⟩ :
        Explorer).theta_std.length) ∧
    (((⟨1, [0], [1], [[0]], 1/2, 1/2, true, 3/10, [4]⟩ : Explorer).learning = true →
      (((⟨1, [0], [1], [[0]], 1/2, 1/2, true, 3/10, [4]⟩ : Explorer).update
          [3] [2]).theta_std.getD 0 []).getD 0 0 =
        ((⟨1, [0], [1], [[0]], 1/2, 1/2, true, 3/10, [4]⟩ :
            Explorer).theta_std.getD 0 []).getD 0 0 +
          (⟨1, [0], [1], [[0]], 1/2, 1/2, true, 3/10, [4]⟩ :
            Explorer).learning_rate * (([2] : List ℝ).getD 0 0 *
            (([3] : List ℝ).getD 0 0 *
              (((⟨1, [0], [1], [[0]], 1/2, 1/2, true, 3/10, [4]⟩ :
                  Explorer).h_array.getD 0 0 -
                  (⟨1, [0], [1], [[0]], 1/2, 1/2, true, 3/10, [4]⟩ :
                    Explorer).mean_array.getD 0 0) ^ 2 /
                ((⟨1, [0], [1], [[0]], 1/2, 1/2, true, 3/10, [4]⟩ :
                  Explorer).std_array.getD 0 0) ^ 2 - 1))))
    ∧ ((⟨1, [0], [1], [[0]], 1/2, 1/2, true, 3/10, [4]⟩ : Explorer).learning = false →
        (⟨1, [0], [1], [[0]], 1/2, 1/2, true, 3/10, [4]⟩ : Explorer).update
          [3] [2] = ⟨1, [0], [1], [[0]], 1/2, 1/2, true, 3/10, [4]⟩)) :=
  ⟨by simp,
    c9_update_gradient ⟨1, [0], [1], [[0]], 1/2, 1/2, true, 3/10, [4]⟩
      [3] [2] 0 0 (by simp) (by simp) (by simp) (by simp)⟩

/-- Claim C10: `Explorer.update` modifies at most `theta_std` — every other
field is unchanged in both learning and non-learning mode. -/
theorem c10_update_frame (e : Explorer) (reward signal_array : List ℝ) :
    (e.update reward signal_array).action_num = e.action_num
    ∧ (e.update reward signal_array).mean_array = e.mean_array
    ∧ (e.update reward signal_array).std_array = e.std_array
    ∧ (e.update reward signal_array).init_learning_rate = e.init_learning_rate
    ∧ (e.update reward signal_array).learning_rate = e.learning_rate
    ∧ (e.update reward signal_array).learning = e.learning
    ∧ (e.update reward signal_array).min_std = e.min_std
    ∧ (e.update reward signal_array).h_array = e.h_array := by
  cases hl : e.learning <;> simp [Explorer.update, hl]

end Env
